import Mathlib

/-!
A verification development for the curriculum sequencing engine of the
`guru` repository (`server/agents/curriculum_agent.py` together with its
knowledge source `server/agents/knowledge_graph.py`).

The Python code is shallowly embedded as executable Lean definitions:

* `ModuleDetails`, `AssessmentOutput`, `PathModule`, `LearningPath` mirror the
  dictionary shapes used by the Python code;
* a `KnowledgeSource` is a finite association list of module entries (the
  shape of `PYTHON_KNOWLEDGE_GRAPH`) plus a goal-resolution function, with
  `get_module_details` / `get_prerequisites` defined exactly as in
  `knowledge_graph.py`;
* `closureAux` embeds the breadth-first prerequisite closure loop of
  `create_learning_path` (step 2 of the Python function) and `topoSortAux`
  embeds its layered topological sort loop (step 3); both `while` loops are
  expressed with an explicit iteration counter (`fuel`), and the counters
  chosen by the wrappers `requiredModules` and `sortedModuleIds` are proved
  large enough (the budget accounting of `closureAux_complete`, and the
  `remaining.length ≤ fuel` invariant of the sort lemmas), so the embedding
  agrees with the unbounded Python loops;
* Python's `sorted` on strings (lexicographic by code point) is embedded as
  `List.insertionSort StrLe`, where `StrLe` is an executable code-point
  comparison proved equivalent to the library order on `String`
  (`strLe_iff`).
-/

/-- Executable lexicographic comparison of char lists by code point.
This is the order Python's `sorted` uses on strings. -/
def charListLeb : List Char → List Char → Bool
  | [], _ => true
  | _ :: _, [] => false
  | a :: as, b :: bs =>
    if a < b then true
    else if b < a then false
    else charListLeb as bs

/-- Executable string order: lexicographic by code point, as used by
Python's `sorted` on the module-id strings. -/
def StrLe (a b : String) : Prop := charListLeb a.data b.data = true

instance : DecidableRel StrLe := fun a b =>
  inferInstanceAs (Decidable (charListLeb a.data b.data = true))

theorem charListLeb_iff : ∀ as bs : List Char, charListLeb as bs = true ↔ ¬ bs < as := by
  intro as
  induction as with
  | nil =>
    intro bs
    constructor
    · intro _ h
      cases h
    · intro _
      rfl
  | cons a as ih =>
    intro bs
    cases bs with
    | nil =>
      constructor
      · intro h
        simp [charListLeb] at h
      · intro h
        exact absurd List.Lex.nil h
    | cons b bs =>
      simp only [charListLeb]
      by_cases hab : a < b
      · rw [if_pos hab]
        refine iff_of_true rfl (fun h => ?_)
        cases h with
        | cons _ => exact lt_irrefl a hab
        | rel h' => exact lt_asymm hab h'
      · rw [if_neg hab]
        by_cases hba : b < a
        · rw [if_pos hba]
          refine iff_of_false (by simp) (fun h => h (List.Lex.rel hba))
        · rw [if_neg hba]
          have hEq : a = b := le_antisymm (not_lt.mp hba) (not_lt.mp hab)
          subst hEq
          rw [ih bs]
          constructor
          · intro h hc
            cases hc with
            | cons h' => exact h h'
            | rel h' => exact lt_irrefl a h'
          · intro h hc
            exact h (List.Lex.cons hc)

/-- `StrLe` agrees with the library's linear order on `String`. -/
theorem strLe_iff (a b : String) : StrLe a b ↔ a ≤ b := by
  rw [String.le_iff_toList_le]
  exact (charListLeb_iff a.data b.data).trans not_lt

instance : IsTrans String StrLe :=
  ⟨fun _ _ _ h1 h2 => (strLe_iff _ _).mpr (le_trans ((strLe_iff _ _).mp h1) ((strLe_iff _ _).mp h2))⟩

instance : IsTotal String StrLe :=
  ⟨fun a b => (le_total a b).imp (strLe_iff a b).mpr (strLe_iff b a).mpr⟩

instance : IsAntisymm String StrLe :=
  ⟨fun _ _ h1 h2 => le_antisymm ((strLe_iff _ _).mp h1) ((strLe_iff _ _).mp h2)⟩

/-- Python's `sorted` on a list of module-id strings. -/
def sortIds (l : List String) : List String := List.insertionSort StrLe l

/-- One entry of the knowledge graph, mirroring the per-module dictionaries of
`PYTHON_KNOWLEDGE_GRAPH` in `knowledge_graph.py`.  `name` and
`estimated_time_hrs` are optional because the Python code reads them with
`details.get(...)`, tolerating absence. -/
structure ModuleDetails where
  name : Option String
  description : String
  prerequisites : List String
  topics : List String
  estimated_time_hrs : Option Rat
deriving DecidableEq, Repr

/-- The knowledge source injected into `CurriculumAgent`: a finite
dictionary of module entries (keyed by module id, with the first binding of
a key the effective one, as in a Python dict) plus the goal-resolution
lookup `find_modules_by_goal`. -/
structure KnowledgeSource where
  graph : List (String × ModuleDetails)
  find_modules_by_goal : String → List String

/-- `knowledge_graph.get_module_details`: dictionary lookup, `none` when the
id is absent. -/
def KnowledgeSource.get_module_details (ks : KnowledgeSource) (module_id : String) :
    Option ModuleDetails :=
  (ks.graph.find? (fun e => e.1 == module_id)).map Prod.snd

/-- `knowledge_graph.get_prerequisites`: the entry's prerequisite list, `[]`
for an unknown module. -/
def KnowledgeSource.get_prerequisites (ks : KnowledgeSource) (module_id : String) :
    List String :=
  match ks.get_module_details module_id with
  | some d => d.prerequisites
  | none => []

/-- The assessment dictionary consumed by `create_learning_path`; only its
`known_topics` entry is read by the algorithm, the rest is carried opaquely
in the snapshot. -/
structure AssessmentOutput where
  known_topics : List String
deriving DecidableEq, Repr

/-- One entry of the `modules` list of a learning path, as assembled in
step 4 of `create_learning_path`. -/
structure PathModule where
  module_id : String
  name : String
  status : String
  estimated_time_hrs : Option Rat
deriving DecidableEq, Repr

/-- The learning-path dictionary returned by `create_learning_path`. -/
structure LearningPath where
  user_id : String
  goal : String
  modules : List PathModule
  current_module_index : Nat
  assessment_snapshot : AssessmentOutput
  user_goals_snapshot : List String
deriving DecidableEq, Repr

/-- Step 2 of `create_learning_path`: the breadth-first prerequisite closure
loop (`while modules_to_explore:`).  The queue, the `processed` set and the
`required_modules` set are the loop state; `fuel` counts the remaining
permitted iterations (the wrapper `requiredModules` supplies a bound that is
proved sufficient, so the `fuel = 0` branch is never the one that stops the
loop). -/
def closureAux (ks : KnowledgeSource) (known : List String) :
    Nat → List String → List String → List String → List String
  | 0, _, _, required => required
  | _ + 1, [], _, required => required
  | fuel + 1, m :: rest, processed, required =>
    if m ∈ processed then
      closureAux ks known fuel rest processed required
    else if m ∈ known then
      closureAux ks known fuel rest (m :: processed) required
    else
      match ks.get_module_details m with
      | none => closureAux ks known fuel rest (m :: processed) required
      | some d =>
          closureAux ks known fuel
            (rest ++ d.prerequisites.filter
              (fun p => decide (p ∉ m :: processed) && decide (p ∉ known)))
            (m :: processed)
            (required ++ [m])

/-- An upper bound on how many further pushes the closure loop can perform:
the total prerequisite-list length of the not-yet-processed graph entries. -/
def pushBudget (ks : KnowledgeSource) (processed : List String) : Nat :=
  (ks.graph.map (fun e => if e.1 ∈ processed then 0 else e.2.prerequisites.length)).sum

/-- The iteration bound used by `requiredModules`: every loop iteration pops
one queue element, and at most `pushBudget ks []` elements are ever pushed
beyond the initial queue. -/
def closureBound (ks : KnowledgeSource) (targets : List String) : Nat :=
  targets.length + pushBudget ks []

/-- The `required_modules` set computed by step 2 of `create_learning_path`
(listed in the order the loop adds them; the Python code keeps them as a
set, and `topo_perm_of_perm` shows the final path is insensitive to that
order). -/
def requiredModules (ks : KnowledgeSource) (known targets : List String) : List String :=
  closureAux ks known (closureBound ks targets) targets [] []

/-- The readiness test of step 3: all prerequisites of `m` are already
satisfied (`prereqs.issubset(satisfied_nodes)`). -/
def ready (ks : KnowledgeSource) (satisfied : List String) (m : String) : Bool :=
  (ks.get_prerequisites m).all (fun p => decide (p ∈ satisfied))

/-- Step 3 of `create_learning_path`: the layered topological sort loop
(`while modules_to_sort:`).  Each pass collects the ready batch, sorts it
lexicographically and appends it; if no module is ready while some remain,
the remaining ids are appended in lexicographic order and the loop stops
(the cycle fallback).  `fuel` counts the remaining permitted iterations;
every recursive call strictly shrinks `remaining`, so the
`remaining.length` supplied by `sortedModuleIds` is sufficient. -/
def topoSortAux (ks : KnowledgeSource) :
    Nat → List String → List String → List String
  | 0, _, _ => []
  | _ + 1, [], _ => []
  | fuel + 1, m :: rest, satisfied =>
    let batch := sortIds ((m :: rest).filter (fun x => ready ks satisfied x))
    if batch = [] then sortIds (m :: rest)
    else
      batch ++ topoSortAux ks fuel
        ((m :: rest).filter (fun x => decide (x ∉ batch)))
        (satisfied ++ batch)

/-- The `sorted_module_ids` list computed by step 3 of
`create_learning_path`, starting from `satisfied_nodes = known_topics` and
`modules_to_sort = required_modules`. -/
def sortedModuleIds (ks : KnowledgeSource) (known required : List String) : List String :=
  topoSortAux ks required.length required known

/-- Step 4 of `create_learning_path`: re-fetch each id's details and build
the path-module dictionaries, silently skipping ids whose details are
absent. -/
def formatModules (ks : KnowledgeSource) (ids : List String) : List PathModule :=
  ids.filterMap (fun id =>
    (ks.get_module_details id).map (fun d =>
      { module_id := id
        name := d.name.getD id
        status := "pending"
        estimated_time_hrs := d.estimated_time_hrs }))

/-- Step 1 of `create_learning_path`: the primary goal is the first user
goal, or a fixed default label when the goal list is empty. -/
def primaryGoal (user_goals : List String) : String :=
  match user_goals with
  | g :: _ => g
  | [] => "Default Learning Goal"

/-- Step 1 of `create_learning_path`, continued: resolve the primary goal to
seed module ids, falling back to the single hardcoded module id
`"python_basics"` when the knowledge source finds none. -/
def targetModuleIds (ks : KnowledgeSource) (goal : String) : List String :=
  let t := ks.find_modules_by_goal goal
  if t = [] then ["python_basics"] else t

/-- `CurriculumAgent.create_learning_path`.  Returns `none` exactly when the
assembled module list is empty (the Python code returns `None` there). -/
def create_learning_path (ks : KnowledgeSource) (user_id : String)
    (assessment_output : AssessmentOutput) (user_goals : List String) :
    Option LearningPath :=
  let known_topics := assessment_output.known_topics
  let primary_goal := primaryGoal user_goals
  let targets := targetModuleIds ks primary_goal
  let required := requiredModules ks known_topics targets
  let sorted := sortedModuleIds ks known_topics required
  let learning_path_modules := formatModules ks sorted
  if learning_path_modules = [] then none
  else
    some
      { user_id := user_id
        goal := primary_goal
        modules := learning_path_modules
        current_module_index := 0
        assessment_snapshot := assessment_output
        user_goals_snapshot := user_goals }

/-- `CurriculumAgent.adapt_learning_path`: the adaptation stub.  The two
data arguments are carried opaquely (the Python stub never reads them) and
the current path is returned unchanged. -/
def adapt_learning_path (current_path : LearningPath)
    (user_performance engagement_data : List (String × String)) :
    Option LearningPath :=
  some current_path

/-- The repository's `PYTHON_KNOWLEDGE_GRAPH` dictionary, entry for entry. -/
def PYTHON_KNOWLEDGE_GRAPH : List (String × ModuleDetails) :=
  [ ("python_basics",
     { name := some "Python Basics"
       description := "Fundamental concepts of Python programming."
       prerequisites := []
       topics := ["variables", "data_types", "operators", "control_flow"]
       estimated_time_hrs := some 4 }),
    ("variables",
     { name := some "Variables and Assignment"
       description := "Storing data in variables."
       prerequisites := []
       topics := []
       estimated_time_hrs := some 0.5 }),
    ("data_types",
     { name := some "Basic Data Types"
       description := "Integers, Floats, Strings, Booleans."
       prerequisites := ["variables"]
       topics := []
       estimated_time_hrs := some 1 }),
    ("operators",
     { name := some "Operators"
       description := "Arithmetic, Comparison, Logical Operators."
       prerequisites := ["variables", "data_types"]
       topics := []
       estimated_time_hrs := some 1 }),
    ("control_flow",
     { name := some "Control Flow"
       description := "Conditional statements (if/elif/else) and loops (for/while)."
       prerequisites := ["variables", "data_types", "operators"]
       topics := ["conditionals", "loops"]
       estimated_time_hrs := some 1.5 }),
    ("conditionals",
     { name := some "Conditional Statements"
       description := "Using if, elif, and else."
       prerequisites := ["operators"]
       topics := []
       estimated_time_hrs := some 0.75 }),
    ("loops",
     { name := some "Loops"
       description := "Using for and while loops."
       prerequisites := ["operators"]
       topics := []
       estimated_time_hrs := some 0.75 }),
    ("functions",
     { name := some "Functions"
       description := "Defining and calling functions."
       prerequisites := ["python_basics"]
       topics := ["defining_functions", "function_arguments", "return_values"]
       estimated_time_hrs := some 3 }) ]

/-- ASCII lowercasing of one character, the effect of Python's
`str.lower()` on the ASCII goal strings used here (written on the char
list so that it reduces in the kernel). -/
def lowerChar (c : Char) : Char :=
  if 65 <= c.toNat && c.toNat <= 90 then Char.ofNat (c.toNat + 32) else c

/-- Python's substring test `pat in s`, on the character lists. -/
def containsSub (s pat : List Char) : Bool :=
  if pat.isPrefixOf s then true
  else
    match s with
    | [] => false
    | _ :: rest => containsSub rest pat

/-- `knowledge_graph.find_modules_by_goal`: keyword matching on the
lower-cased goal, defaulting to `["python_basics"]`. -/
def find_modules_by_goal (goal : String) : List String :=
  let goal_lower := goal.data.map lowerChar
  if containsSub goal_lower "python basics".data then ["python_basics"]
  else if containsSub goal_lower "function".data then ["functions"]
  else ["python_basics"]

/-- The knowledge source the repository actually wires in: the module
`knowledge_graph.py`. -/
def pythonKS : KnowledgeSource :=
  { graph := PYTHON_KNOWLEDGE_GRAPH
    find_modules_by_goal := find_modules_by_goal }

/-- The knowledge source of the worked scenario exactly as the claim states
it: `control_flow` requires `variables`, `data_types` and `operators`,
`operators` requires `variables` and `data_types`, and nothing else has any
prerequisite (in particular `data_types`, unlike in the repository's graph,
has none). -/
def c8LiteralKS : KnowledgeSource :=
  { graph :=
      [ ("control_flow",
         { name := some "Control Flow", description := ""
           prerequisites := ["variables", "data_types", "operators"]
           topics := [], estimated_time_hrs := some 1.5 }),
        ("variables",
         { name := some "Variables", description := ""
           prerequisites := [], topics := [], estimated_time_hrs := some 0.5 }),
        ("data_types",
         { name := some "Data Types", description := ""
           prerequisites := [], topics := [], estimated_time_hrs := some 1 }),
        ("operators",
         { name := some "Operators", description := ""
           prerequisites := ["variables", "data_types"]
           topics := [], estimated_time_hrs := some 1 }) ]
    find_modules_by_goal := fun _ => ["control_flow"] }

/-- The repository's graph with a goal function resolving to
`control_flow`; in `PYTHON_KNOWLEDGE_GRAPH` `data_types` additionally
requires `variables`. -/
def c8RepoKS : KnowledgeSource :=
  { graph := PYTHON_KNOWLEDGE_GRAPH
    find_modules_by_goal := fun _ => ["control_flow"] }

/-- An acyclic knowledge source with a dangling prerequisite reference:
module `b` requires `a`, but `a` has no entry. -/
def c1DanglingKS : KnowledgeSource :=
  { graph :=
      [ ("b",
         { name := some "B", description := ""
           prerequisites := ["a"], topics := [], estimated_time_hrs := none }) ]
    find_modules_by_goal := fun _ => ["b"] }

/-- A knowledge source whose goal resolution returns an id with no entry
even for the default goal, while `python_basics` itself exists. -/
def c7GhostKS : KnowledgeSource :=
  { graph :=
      [ ("python_basics",
         { name := some "PB", description := ""
           prerequisites := [], topics := [], estimated_time_hrs := none }) ]
    find_modules_by_goal := fun _ => ["ghost"] }

/-- A knowledge source whose goal resolution finds nothing for any goal,
so the hardcoded `python_basics` fallback seed is exercised. -/
def c7FallbackKS : KnowledgeSource :=
  { graph :=
      [ ("python_basics",
         { name := some "PB", description := ""
           prerequisites := [], topics := [], estimated_time_hrs := none }) ]
    find_modules_by_goal := fun _ => [] }

/-- A two-module prerequisite cycle: `a` requires `b` and `b` requires
`a`. -/
def cycleKS : KnowledgeSource :=
  { graph :=
      [ ("a",
         { name := some "A", description := ""
           prerequisites := ["b"], topics := [], estimated_time_hrs := none }),
        ("b",
         { name := some "B", description := ""
           prerequisites := ["a"], topics := [], estimated_time_hrs := none }) ]
    find_modules_by_goal := fun _ => ["a"] }

/-- A two-module acyclic chain used as a witness input: `a2` requires `a1`.
-/
def chainKS : KnowledgeSource :=
  { graph :=
      [ ("a2",
         { name := some "A2", description := ""
           prerequisites := ["a1"], topics := [], estimated_time_hrs := none }),
        ("a1",
         { name := some "A1", description := ""
           prerequisites := [], topics := [], estimated_time_hrs := none }) ]
    find_modules_by_goal := fun _ => ["a2"] }

/-- The prerequisite-validity property of a module-id sequence, as stated by
the specification: every prerequisite of the module at position `i` is
either already known or occurs at a position strictly before `i`. -/
def PrereqValid (ks : KnowledgeSource) (known ids : List String) : Prop :=
  ∀ (i : Nat) (hi : i < ids.length),
    ∀ p ∈ ks.get_prerequisites (ids.get ⟨i, hi⟩), p ∈ known ∨ p ∈ ids.take i

/-! ### Helper lemmas about `sortIds` -/

theorem sortIds_perm (l : List String) : (sortIds l).Perm l :=
  List.perm_insertionSort StrLe l

theorem sortIds_sorted (l : List String) : List.Sorted StrLe (sortIds l) :=
  List.sorted_insertionSort StrLe l

theorem mem_sortIds {x : String} {l : List String} : x ∈ sortIds l ↔ x ∈ l :=
  (sortIds_perm l).mem_iff

theorem sortIds_eq_nil_iff {l : List String} : sortIds l = [] ↔ l = [] := by
  constructor
  · intro h
    exact ((sortIds_perm l).symm.trans (h ▸ List.Perm.refl [])).eq_nil
  · intro h
    subst h
    rfl

theorem sortIds_eq_of_perm {l₁ l₂ : List String} (h : l₁.Perm l₂) : sortIds l₁ = sortIds l₂ :=
  List.eq_of_perm_of_sorted ((sortIds_perm l₁).trans (h.trans (sortIds_perm l₂).symm))
    (sortIds_sorted l₁) (sortIds_sorted l₂)

/-! ### Helper lemmas about the topological sort loop -/

theorem ready_congr (ks : KnowledgeSource) {s₁ s₂ : List String}
    (h : ∀ x, x ∈ s₁ ↔ x ∈ s₂) (m : String) : ready ks s₁ m = ready ks s₂ m := by
  unfold ready
  congr 1
  funext p
  exact decide_eq_decide.mpr (h p)

/-- If the ready batch of a pass is non-empty, the `remaining` list strictly
shrinks, so the fuel bound `remaining.length` is maintained. -/
theorem filter_not_mem_batch_length_lt (ks : KnowledgeSource)
    (satisfied remaining : List String)
    (h : sortIds (remaining.filter (fun x => ready ks satisfied x)) ≠ []) :
    (remaining.filter
      (fun x => decide (x ∉ sortIds (remaining.filter (fun x => ready ks satisfied x))))).length
      < remaining.length := by
  rw [List.length_filter_lt_length_iff_exists]
  obtain ⟨b, hb⟩ := List.exists_mem_of_ne_nil _ h
  have hb' : b ∈ remaining.filter (fun x => ready ks satisfied x) := mem_sortIds.mp hb
  exact ⟨b, (List.mem_filter.mp hb').1, by simpa using hb⟩

/-- The output of the sort loop is a permutation of `remaining`, for any
sufficient fuel. -/
theorem topoSortAux_perm (ks : KnowledgeSource) :
    ∀ (fuel : Nat) (remaining satisfied : List String), remaining.length ≤ fuel →
      (topoSortAux ks fuel remaining satisfied).Perm remaining := by
  intro fuel
  induction fuel with
  | zero =>
    intro remaining satisfied h
    have hnil : remaining = [] := List.eq_nil_of_length_eq_zero (Nat.le_zero.mp h)
    subst hnil
    exact List.Perm.refl _
  | succ fuel ih =>
    intro remaining satisfied h
    cases remaining with
    | nil => exact List.Perm.refl _
    | cons m rest =>
      simp only [topoSortAux]
      by_cases hb : sortIds ((m :: rest).filter (fun x => ready ks satisfied x)) = []
      · rw [if_pos hb]
        exact sortIds_perm _
      · rw [if_neg hb]
        have hlt := filter_not_mem_batch_length_lt ks satisfied (m :: rest) hb
        have hrec := ih _ (satisfied ++ sortIds ((m :: rest).filter (fun x => ready ks satisfied x)))
          (Nat.le_of_lt_succ (Nat.lt_of_lt_of_le hlt h))
        refine ((sortIds_perm _).append hrec).trans ?_
        have hcongr : (m :: rest).filter
            (fun x => decide (x ∉ sortIds ((m :: rest).filter (fun x => ready ks satisfied x))))
            = (m :: rest).filter (fun x => !(ready ks satisfied x)) := by
          refine List.filter_congr (fun x hx => ?_)
          by_cases hr : ready ks satisfied x = true
          · have hxb : x ∈ sortIds ((m :: rest).filter (fun x => ready ks satisfied x)) :=
              mem_sortIds.mpr (List.mem_filter.mpr ⟨hx, hr⟩)
            simp [hxb, hr]
          · have hxb : x ∉ sortIds ((m :: rest).filter (fun x => ready ks satisfied x)) := by
              intro hc
              exact hr (List.mem_filter.mp (mem_sortIds.mp hc)).2
            simp [hxb, Bool.eq_false_iff.mpr hr]
        rw [hcongr]
        exact List.filter_append_perm _ _

/-- The sort loop is insensitive to the list representation of its two set
arguments: permuting `remaining` and replacing `satisfied` by any list with
the same members yields the same output.  This is what makes
`create_learning_path` deterministic despite Python's unordered sets. -/
theorem topoSortAux_eq_of_perm (ks : KnowledgeSource) :
    ∀ (fuel : Nat) (r₁ r₂ s₁ s₂ : List String), r₁.Perm r₂ → (∀ x, x ∈ s₁ ↔ x ∈ s₂) →
      topoSortAux ks fuel r₁ s₁ = topoSortAux ks fuel r₂ s₂ := by
  intro fuel
  induction fuel with
  | zero =>
    intro r₁ r₂ s₁ s₂ _ _
    rfl
  | succ fuel ih =>
    intro r₁ r₂ s₁ s₂ hr hs
    cases r₁ with
    | nil =>
      have h2 : r₂ = [] := hr.symm.eq_nil
      subst h2
      rfl
    | cons m rest =>
      cases r₂ with
      | nil => exact absurd hr.eq_nil (by simp)
      | cons m₂ rest₂ =>
        have hready : ∀ x, ready ks s₁ x = ready ks s₂ x := ready_congr ks hs
        have hfe : (m₂ :: rest₂).filter (fun x => ready ks s₁ x)
            = (m₂ :: rest₂).filter (fun x => ready ks s₂ x) :=
          List.filter_congr (fun x _ => hready x)
        have hbatch : sortIds ((m :: rest).filter (fun x => ready ks s₁ x))
            = sortIds ((m₂ :: rest₂).filter (fun x => ready ks s₂ x)) := by
          rw [← hfe]
          exact sortIds_eq_of_perm (hr.filter _)
        simp only [topoSortAux]
        rw [hbatch]
        by_cases hb : sortIds ((m₂ :: rest₂).filter (fun x => ready ks s₂ x)) = []
        · rw [if_pos hb, if_pos hb]
          exact sortIds_eq_of_perm hr
        · rw [if_neg hb, if_neg hb]
          refine congrArg _ (ih _ _ _ _ (hr.filter _) (fun x => ?_))
          simp only [List.mem_append]
          exact or_congr (hs x) Iff.rfl

/-- Every non-empty list of ids has a member of minimal rank. -/
theorem exists_min_rank (rank : String → Nat) :
    ∀ (l : List String), l ≠ [] → ∃ w ∈ l, ∀ x ∈ l, rank w ≤ rank x := by
  intro l
  induction l with
  | nil => intro h; exact absurd rfl h
  | cons a t ih =>
    intro _
    by_cases ht : t = []
    · subst ht
      exact ⟨a, List.mem_cons_self a [], fun x hx => by rw [List.mem_singleton.mp hx]⟩
    · obtain ⟨w, hw, hmin⟩ := ih ht
      by_cases hle : rank a ≤ rank w
      · refine ⟨a, List.mem_cons_self a t, fun x hx => ?_⟩
        rcases List.mem_cons.mp hx with h | h
        · rw [h]
        · exact le_trans hle (hmin x h)
      · refine ⟨w, List.mem_cons_of_mem a hw, fun x hx => ?_⟩
        rcases List.mem_cons.mp hx with h | h
        · rw [h]
          exact le_of_lt (lt_of_not_le hle)
        · exact hmin x h

/-- If the prerequisite graph is acyclic (witnessed by a rank function) and
every prerequisite of a remaining module is satisfied or itself remaining,
then some remaining module is ready, so the ready batch is non-empty and the
cycle fallback is not taken. -/
theorem batch_ne_nil_of_rank (ks : KnowledgeSource) (rank : String → Nat)
    (hacyc : ∀ m p, p ∈ ks.get_prerequisites m → rank p < rank m)
    (remaining satisfied : List String) (hne : remaining ≠ [])
    (hcov : ∀ m ∈ remaining, ∀ p ∈ ks.get_prerequisites m, p ∈ satisfied ∨ p ∈ remaining) :
    sortIds (remaining.filter (fun x => ready ks satisfied x)) ≠ [] := by
  obtain ⟨w, hw, hmin⟩ := exists_min_rank rank remaining hne
  have hready : ready ks satisfied w = true := by
    rw [ready, List.all_eq_true]
    intro p hp
    rcases hcov w hw p hp with h | h
    · exact decide_eq_true h
    · exact absurd (hacyc w p hp) (not_lt.mpr (hmin p h))
  intro hnil
  rw [sortIds_eq_nil_iff, List.filter_eq_nil_iff] at hnil
  exact hnil w hw hready

/-- Prerequisite validity of the sort loop output: provided the graph is
acyclic and every prerequisite of a remaining module is satisfied or itself
remaining, every module the loop emits has all its prerequisites either in
the initial `satisfied` set or emitted strictly earlier. -/
theorem topoSortAux_valid (ks : KnowledgeSource) (rank : String → Nat)
    (hacyc : ∀ m p, p ∈ ks.get_prerequisites m → rank p < rank m) :
    ∀ (fuel : Nat) (remaining satisfied : List String),
      remaining.length ≤ fuel →
      (∀ m ∈ remaining, ∀ p ∈ ks.get_prerequisites m, p ∈ satisfied ∨ p ∈ remaining) →
      ∀ pfx m sfx, topoSortAux ks fuel remaining satisfied = pfx ++ m :: sfx →
        ∀ p ∈ ks.get_prerequisites m, p ∈ satisfied ∨ p ∈ pfx := by
  intro fuel
  induction fuel with
  | zero =>
    intro remaining satisfied hlen _ pfx m sfx hout
    exact absurd hout.symm (by simp [topoSortAux])
  | succ fuel ih =>
    intro remaining satisfied hlen hcov pfx m sfx hout
    cases remaining with
    | nil => exact absurd hout.symm (by simp [topoSortAux])
    | cons m0 rest =>
      have hb := batch_ne_nil_of_rank ks rank hacyc (m0 :: rest) satisfied (by simp) hcov
      simp only [topoSortAux] at hout
      rw [if_neg hb] at hout
      have hlen' : ((m0 :: rest).filter
          (fun x => decide (x ∉ sortIds ((m0 :: rest).filter (fun x => ready ks satisfied x))))).length
          ≤ fuel :=
        Nat.le_of_lt_succ
          (Nat.lt_of_lt_of_le (filter_not_mem_batch_length_lt ks satisfied (m0 :: rest) hb) hlen)
      have hcov' : ∀ x ∈ (m0 :: rest).filter
          (fun x => decide (x ∉ sortIds ((m0 :: rest).filter (fun x => ready ks satisfied x)))),
          ∀ p ∈ ks.get_prerequisites x,
            p ∈ satisfied ++ sortIds ((m0 :: rest).filter (fun x => ready ks satisfied x)) ∨
            p ∈ (m0 :: rest).filter
              (fun x => decide (x ∉ sortIds ((m0 :: rest).filter (fun x => ready ks satisfied x)))) := by
        intro x hx p hp
        rcases hcov x (List.mem_filter.mp hx).1 p hp with h | h
        · exact Or.inl (List.mem_append.mpr (Or.inl h))
        · by_cases hpb : p ∈ sortIds ((m0 :: rest).filter (fun x => ready ks satisfied x))
          · exact Or.inl (List.mem_append.mpr (Or.inr hpb))
          · exact Or.inr (List.mem_filter.mpr ⟨h, decide_eq_true hpb⟩)
      rcases List.append_eq_append_iff.mp hout with ⟨a', hpfx, hrec⟩ | ⟨c', hbatch, hcs⟩
      · have hres := ih _ _ hlen' hcov' a' m sfx hrec
        intro p hp
        rcases hres p hp with h | h
        · rcases List.mem_append.mp h with h' | h'
          · exact Or.inl h'
          · exact Or.inr (hpfx ▸ List.mem_append.mpr (Or.inl h'))
        · exact Or.inr (hpfx ▸ List.mem_append.mpr (Or.inr h))
      · cases c' with
        | nil =>
          have hrec : topoSortAux ks fuel
              ((m0 :: rest).filter
                (fun x => decide (x ∉ sortIds ((m0 :: rest).filter (fun x => ready ks satisfied x)))))
              (satisfied ++ sortIds ((m0 :: rest).filter (fun x => ready ks satisfied x)))
              = [] ++ m :: sfx := by
            simpa using hcs.symm
          have hres := ih _ _ hlen' hcov' [] m sfx hrec
          intro p hp
          rcases hres p hp with h | h
          · rcases List.mem_append.mp h with h' | h'
            · exact Or.inl h'
            · refine Or.inr ?_
              rw [hbatch] at h'
              simpa using h'
          · exact absurd h (List.not_mem_nil p)
        | cons c cs =>
          have hmc : m = c := by
            have := congrArg (fun l => l.head?) hcs
            simpa using this
          subst hmc
          have hmb : m ∈ sortIds ((m0 :: rest).filter (fun x => ready ks satisfied x)) := by
            rw [hbatch]
            exact List.mem_append.mpr (Or.inr (List.mem_cons_self _ _))
          have hready : ready ks satisfied m = true :=
            (List.mem_filter.mp (mem_sortIds.mp hmb)).2
          intro p hp
          rw [ready, List.all_eq_true] at hready
          exact Or.inl (of_decide_eq_true (hready p hp))

/-! ### Helper lemmas about the prerequisite closure loop -/

theorem get_prerequisites_of_details {ks : KnowledgeSource} {m : String} {d : ModuleDetails}
    (h : ks.get_module_details m = some d) : ks.get_prerequisites m = d.prerequisites := by
  unfold KnowledgeSource.get_prerequisites
  rw [h]

theorem budget_sum_mono (g : List (String × ModuleDetails)) (proc proc' : List String)
    (hsub : ∀ x, x ∈ proc → x ∈ proc') :
    (g.map (fun e => if e.1 ∈ proc' then 0 else e.2.prerequisites.length)).sum
      ≤ (g.map (fun e => if e.1 ∈ proc then 0 else e.2.prerequisites.length)).sum := by
  refine List.sum_le_sum (fun e _ => ?_)
  by_cases h1 : e.1 ∈ proc'
  · simp [h1]
  · have h2 : e.1 ∉ proc := fun hc => h1 (hsub e.1 hc)
    simp [h1, h2]

theorem pushBudget_cons (ks : KnowledgeSource) (m : String) (processed : List String) :
    pushBudget ks (m :: processed) ≤ pushBudget ks processed :=
  budget_sum_mono ks.graph processed (m :: processed)
    (fun x hx => List.mem_cons_of_mem m hx)

theorem budget_drop (g : List (String × ModuleDetails)) (m : String) (proc : List String)
    (ed : String × ModuleDetails) (hfind : g.find? (fun e => e.1 == m) = some ed)
    (hm : m ∉ proc) :
    (g.map (fun e => if e.1 ∈ m :: proc then 0 else e.2.prerequisites.length)).sum
        + ed.2.prerequisites.length
      ≤ (g.map (fun e => if e.1 ∈ proc then 0 else e.2.prerequisites.length)).sum := by
  induction g with
  | nil => simp [List.find?] at hfind
  | cons e t ih =>
    cases hbe : (e.1 == m) with
    | true =>
      rw [List.find?_cons, hbe] at hfind
      have hed : e = ed := by injection hfind
      subst hed
      have he1 : e.1 = m := by simpa using hbe
      have hmono := budget_sum_mono t proc (m :: proc)
        (fun x hx => List.mem_cons_of_mem m hx)
      simp only [List.map_cons, List.sum_cons, he1]
      rw [if_pos (List.mem_cons_self m proc), if_neg hm]
      omega
    | false =>
      rw [List.find?_cons, hbe] at hfind
      have he1 : e.1 ≠ m := by simpa using hbe
      have hhead : (if e.1 ∈ m :: proc then 0 else e.2.prerequisites.length)
          = (if e.1 ∈ proc then 0 else e.2.prerequisites.length) := by
        by_cases h : e.1 ∈ proc
        · rw [if_pos (List.mem_cons_of_mem m h), if_pos h]
        · rw [if_neg (by simp [he1, h]), if_neg h]
      simp only [List.map_cons, List.sum_cons, hhead]
      have := ih hfind
      omega

theorem pushBudget_drop (ks : KnowledgeSource) (m : String) (proc : List String)
    (d : ModuleDetails) (hdet : ks.get_module_details m = some d) (hm : m ∉ proc) :
    pushBudget ks (m :: proc) + d.prerequisites.length ≤ pushBudget ks proc := by
  obtain ⟨ed, hfind, hed⟩ :
      ∃ ed, ks.graph.find? (fun e => e.1 == m) = some ed ∧ ed.2 = d := by
    unfold KnowledgeSource.get_module_details at hdet
    cases hfd : ks.graph.find? (fun e => e.1 == m) with
    | none => rw [hfd] at hdet; simp at hdet
    | some ed =>
      rw [hfd] at hdet
      exact ⟨ed, rfl, by simpa using hdet⟩
  unfold pushBudget
  rw [← hed]
  exact budget_drop ks.graph m proc ed hfind hm

/-- The closure loop only ever appends to `required_modules`. -/
theorem closureAux_sub (ks : KnowledgeSource) (known : List String) :
    ∀ (fuel : Nat) (queue processed required : List String),
      ∀ x ∈ required, x ∈ closureAux ks known fuel queue processed required := by
  intro fuel
  induction fuel with
  | zero => intro queue processed required x hx; exact hx
  | succ fuel ih =>
    intro queue processed required x hx
    cases queue with
    | nil => exact hx
    | cons m rest =>
      simp only [closureAux]
      by_cases h1 : m ∈ processed
      · rw [if_pos h1]
        exact ih rest processed required x hx
      · rw [if_neg h1]
        by_cases h2 : m ∈ known
        · rw [if_pos h2]
          exact ih rest (m :: processed) required x hx
        · rw [if_neg h2]
          cases hdet : ks.get_module_details m with
          | none => exact ih rest (m :: processed) required x hx
          | some d =>
            exact ih _ (m :: processed) (required ++ [m]) x
              (List.mem_append.mpr (Or.inl hx))

/-- Any property of module ids that holds of `required` initially and of
every id that is not known and resolves in the knowledge source holds of
everything the closure loop collects. -/
theorem closureAux_forall (ks : KnowledgeSource) (known : List String) (P : String → Prop)
    (hnew : ∀ m d, m ∉ known → ks.get_module_details m = some d → P m) :
    ∀ (fuel : Nat) (queue processed required : List String),
      (∀ x ∈ required, P x) →
      ∀ x ∈ closureAux ks known fuel queue processed required, P x := by
  intro fuel
  induction fuel with
  | zero => intro queue processed required hreq x hx; exact hreq x hx
  | succ fuel ih =>
    intro queue processed required hreq x hx
    cases queue with
    | nil => exact hreq x hx
    | cons m rest =>
      simp only [closureAux] at hx
      by_cases h1 : m ∈ processed
      · rw [if_pos h1] at hx
        exact ih rest processed required hreq x hx
      · rw [if_neg h1] at hx
        by_cases h2 : m ∈ known
        · rw [if_pos h2] at hx
          exact ih rest (m :: processed) required hreq x hx
        · rw [if_neg h2] at hx
          cases hdet : ks.get_module_details m with
          | none =>
            rw [hdet] at hx
            exact ih rest (m :: processed) required hreq x hx
          | some d =>
            rw [hdet] at hx
            refine ih _ (m :: processed) (required ++ [m]) ?_ x hx
            intro y hy
            rcases List.mem_append.mp hy with h | h
            · exact hreq y h
            · rw [List.mem_singleton.mp h]
              exact hnew m d h2 hdet

/-- The closure loop never collects a module id twice. -/
theorem closureAux_nodup (ks : KnowledgeSource) (known : List String) :
    ∀ (fuel : Nat) (queue processed required : List String),
      required.Nodup → (∀ x ∈ required, x ∈ processed) →
      (closureAux ks known fuel queue processed required).Nodup := by
  intro fuel
  induction fuel with
  | zero => intro queue processed required hnd _; exact hnd
  | succ fuel ih =>
    intro queue processed required hnd hsub
    cases queue with
    | nil => exact hnd
    | cons m rest =>
      simp only [closureAux]
      by_cases h1 : m ∈ processed
      · rw [if_pos h1]
        exact ih rest processed required hnd hsub
      · rw [if_neg h1]
        by_cases h2 : m ∈ known
        · rw [if_pos h2]
          exact ih rest (m :: processed) required hnd
            (fun x hx => List.mem_cons_of_mem m (hsub x hx))
        · rw [if_neg h2]
          cases hdet : ks.get_module_details m with
          | none =>
            exact ih rest (m :: processed) required hnd
              (fun x hx => List.mem_cons_of_mem m (hsub x hx))
          | some d =>
            refine ih _ (m :: processed) (required ++ [m]) ?_ ?_
            · rw [List.nodup_append]
              refine ⟨hnd, List.nodup_singleton m, ?_⟩
              intro x hx hx'
              rw [List.mem_singleton.mp hx'] at hx
              exact h1 (hsub m hx)
            · intro x hx
              rcases List.mem_append.mp hx with h | h
              · exact List.mem_cons_of_mem m (hsub x h)
              · rw [List.mem_singleton.mp h]
                exact List.mem_cons_self m processed

/-- Completeness of the closure: once the loop has drained its queue, every
prerequisite of a collected module is known, collected itself, or absent
from the knowledge source.  The fuel hypothesis is exactly what
`closureBound` provides initially: every iteration pops one queue element,
and pushes only prerequisites of newly processed present modules. -/
theorem closureAux_complete (ks : KnowledgeSource) (known : List String) :
    ∀ (fuel : Nat) (queue processed required : List String),
      queue.length + pushBudget ks processed ≤ fuel →
      (∀ m ∈ required, ∀ p ∈ ks.get_prerequisites m,
        p ∈ known ∨ p ∈ processed ∨ p ∈ queue) →
      (∀ x ∈ processed, x ∈ known ∨ x ∈ required ∨ ks.get_module_details x = none) →
      ∀ m ∈ closureAux ks known fuel queue processed required,
        ∀ p ∈ ks.get_prerequisites m,
          p ∈ known ∨ p ∈ closureAux ks known fuel queue processed required
            ∨ ks.get_module_details p = none := by
  intro fuel
  induction fuel with
  | zero =>
    intro queue processed required hfuel hinv1 hinv2 m hm p hp
    have hq : queue = [] := by
      cases queue with
      | nil => rfl
      | cons a t => simp at hfuel
    subst hq
    rcases hinv1 m hm p hp with h | h | h
    · exact Or.inl h
    · rcases hinv2 p h with h' | h' | h'
      · exact Or.inl h'
      · exact Or.inr (Or.inl h')
      · exact Or.inr (Or.inr h')
    · exact absurd h (List.not_mem_nil p)
  | succ fuel ih =>
    intro queue processed required hfuel hinv1 hinv2 m hm p hp
    cases queue with
    | nil =>
      rcases hinv1 m hm p hp with h | h | h
      · exact Or.inl h
      · rcases hinv2 p h with h' | h' | h'
        · exact Or.inl h'
        · exact Or.inr (Or.inl h')
        · exact Or.inr (Or.inr h')
      · exact absurd h (List.not_mem_nil p)
    | cons m0 rest =>
      simp only [closureAux] at hm ⊢
      by_cases h1 : m0 ∈ processed
      · rw [if_pos h1] at hm ⊢
        refine ih rest processed required ?_ ?_ hinv2 m hm p hp
        · have : (m0 :: rest).length + pushBudget ks processed ≤ fuel + 1 := hfuel
          simp only [List.length_cons] at this
          omega
        · intro y hy q hq
          rcases hinv1 y hy q hq with h | h | h
          · exact Or.inl h
          · exact Or.inr (Or.inl h)
          · rcases List.mem_cons.mp h with h' | h'
            · exact Or.inr (Or.inl (h' ▸ h1))
            · exact Or.inr (Or.inr h')
      · rw [if_neg h1] at hm ⊢
        by_cases h2 : m0 ∈ known
        · rw [if_pos h2] at hm ⊢
          refine ih rest (m0 :: processed) required ?_ ?_ ?_ m hm p hp
          · have hb := pushBudget_cons ks m0 processed
            have : (m0 :: rest).length + pushBudget ks processed ≤ fuel + 1 := hfuel
            simp only [List.length_cons] at this
            omega
          · intro y hy q hq
            rcases hinv1 y hy q hq with h | h | h
            · exact Or.inl h
            · exact Or.inr (Or.inl (List.mem_cons_of_mem m0 h))
            · rcases List.mem_cons.mp h with h' | h'
              · exact Or.inr (Or.inl (h' ▸ List.mem_cons_self m0 processed))
              · exact Or.inr (Or.inr h')
          · intro y hy
            rcases List.mem_cons.mp hy with h | h
            · exact Or.inl (h ▸ h2)
            · exact hinv2 y h
        · rw [if_neg h2] at hm ⊢
          cases hdet : ks.get_module_details m0 with
          | none =>
            rw [hdet] at hm
            refine ih rest (m0 :: processed) required ?_ ?_ ?_ m hm p hp
            · have hb := pushBudget_cons ks m0 processed
              have : (m0 :: rest).length + pushBudget ks processed ≤ fuel + 1 := hfuel
              simp only [List.length_cons] at this
              omega
            · intro y hy q hq
              rcases hinv1 y hy q hq with h | h | h
              · exact Or.inl h
              · exact Or.inr (Or.inl (List.mem_cons_of_mem m0 h))
              · rcases List.mem_cons.mp h with h' | h'
                · exact Or.inr (Or.inl (h' ▸ List.mem_cons_self m0 processed))
                · exact Or.inr (Or.inr h')
            · intro y hy
              rcases List.mem_cons.mp hy with h | h
              · exact Or.inr (Or.inr (h ▸ hdet))
              · exact hinv2 y h
          | some d =>
            rw [hdet] at hm
            refine ih _ (m0 :: processed) (required ++ [m0]) ?_ ?_ ?_ m hm p hp
            · have hb := pushBudget_drop ks m0 processed d hdet h1
              have hlen : (rest ++ d.prerequisites.filter
                  (fun p => decide (p ∉ m0 :: processed) && decide (p ∉ known))).length
                  ≤ rest.length + d.prerequisites.length := by
                rw [List.length_append]
                exact Nat.add_le_add_left (List.length_filter_le _ _) rest.length
              have : (m0 :: rest).length + pushBudget ks processed ≤ fuel + 1 := hfuel
              simp only [List.length_cons] at this
              omega
            · intro y hy q hq
              rcases List.mem_append.mp hy with h | h
              · rcases hinv1 y h q hq with h' | h' | h'
                · exact Or.inl h'
                · exact Or.inr (Or.inl (List.mem_cons_of_mem m0 h'))
                · rcases List.mem_cons.mp h' with h'' | h''
                  · exact Or.inr (Or.inl (h'' ▸ List.mem_cons_self m0 processed))
                  · exact Or.inr (Or.inr (List.mem_append.mpr (Or.inl h'')))
              · rw [List.mem_singleton.mp h] at hq
                rw [get_prerequisites_of_details hdet] at hq
                by_cases hqk : q ∈ known
                · exact Or.inl hqk
                · by_cases hqp : q ∈ m0 :: processed
                  · exact Or.inr (Or.inl hqp)
                  · refine Or.inr (Or.inr (List.mem_append.mpr (Or.inr ?_)))
                    refine List.mem_filter.mpr ⟨hq, ?_⟩
                    rw [Bool.and_eq_true]
                    exact ⟨decide_eq_true hqp, decide_eq_true hqk⟩
            · intro y hy
              rcases List.mem_cons.mp hy with h | h
              · exact Or.inr (Or.inl (h ▸ List.mem_append.mpr (Or.inr (List.mem_singleton.mpr rfl))))
              · rcases hinv2 y h with h' | h' | h'
                · exact Or.inl h'
                · exact Or.inr (Or.inl (List.mem_append.mpr (Or.inl h')))
                · exact Or.inr (Or.inr h')

/-! ### Wrappers: properties of `requiredModules` -/

/-- Every prerequisite of a required module is known, required itself, or
absent from the knowledge source. -/
theorem requiredModules_complete (ks : KnowledgeSource) (known targets : List String) :
    ∀ m ∈ requiredModules ks known targets, ∀ p ∈ ks.get_prerequisites m,
      p ∈ known ∨ p ∈ requiredModules ks known targets
        ∨ ks.get_module_details p = none := by
  intro m hm p hp
  exact closureAux_complete ks known (closureBound ks targets) targets [] []
    (le_of_eq rfl) (by simp) (by simp) m hm p hp

theorem requiredModules_nodup (ks : KnowledgeSource) (known targets : List String) :
    (requiredModules ks known targets).Nodup :=
  closureAux_nodup ks known _ targets [] [] List.nodup_nil (by simp)

theorem requiredModules_not_known (ks : KnowledgeSource) (known targets : List String) :
    ∀ x ∈ requiredModules ks known targets, x ∉ known :=
  closureAux_forall ks known (fun x => x ∉ known) (fun _ _ hm _ => hm)
    _ targets [] [] (by simp)

theorem requiredModules_isSome (ks : KnowledgeSource) (known targets : List String) :
    ∀ x ∈ requiredModules ks known targets, (ks.get_module_details x).isSome = true :=
  closureAux_forall ks known (fun x => (ks.get_module_details x).isSome = true)
    (fun m _ _ hd => by
      show (ks.get_module_details m).isSome = true
      rw [hd]
      rfl)
    _ targets [] [] (by simp)

/-- Seeding the closure with `"python_basics"` alone collects it, provided
it resolves and is not already known. -/
theorem python_basics_mem_required (ks : KnowledgeSource) (known : List String)
    (hk : "python_basics" ∉ known) (d : ModuleDetails)
    (hd : ks.get_module_details "python_basics" = some d) :
    "python_basics" ∈ requiredModules ks known ["python_basics"] := by
  unfold requiredModules
  have hb : closureBound ks ["python_basics"] = pushBudget ks [] + 1 := by
    unfold closureBound
    simp [Nat.add_comm]
  rw [hb]
  simp only [closureAux]
  rw [if_neg (List.not_mem_nil _), if_neg hk, hd]
  exact closureAux_sub ks known _ _ _ _ "python_basics" (by simp)

/-! ### Wrappers: properties of the assembled path -/

theorem formatModules_map_id (ks : KnowledgeSource) (ids : List String) :
    (formatModules ks ids).map PathModule.module_id
      = ids.filter (fun i => (ks.get_module_details i).isSome) := by
  induction ids with
  | nil => rfl
  | cons i t ih =>
    simp only [formatModules] at ih ⊢
    simp only [List.filterMap_cons]
    cases hdet : ks.get_module_details i with
    | none => simp [hdet, List.filter_cons, ih]
    | some d => simp [hdet, List.filter_cons, ih]

theorem mem_formatModules_map {ks : KnowledgeSource} {ids : List String} {x : String} :
    x ∈ (formatModules ks ids).map PathModule.module_id
      ↔ x ∈ ids ∧ (ks.get_module_details x).isSome = true := by
  rw [formatModules_map_id, List.mem_filter]

theorem formatModules_map_id_of_all {ks : KnowledgeSource} {ids : List String}
    (h : ∀ i ∈ ids, (ks.get_module_details i).isSome = true) :
    (formatModules ks ids).map PathModule.module_id = ids := by
  rw [formatModules_map_id]
  exact List.filter_eq_self.mpr h

/-- Inversion of a successful `create_learning_path`: the returned path's
module list is the formatted topologically sorted required-module list. -/
theorem create_modules_eq {ks : KnowledgeSource} {uid : String} {a : AssessmentOutput}
    {goals : List String} {path : LearningPath}
    (h : create_learning_path ks uid a goals = some path) :
    path.modules = formatModules ks (sortedModuleIds ks a.known_topics
      (requiredModules ks a.known_topics (targetModuleIds ks (primaryGoal goals)))) := by
  by_cases hm : formatModules ks (sortedModuleIds ks a.known_topics
      (requiredModules ks a.known_topics (targetModuleIds ks (primaryGoal goals)))) = []
  · simp only [create_learning_path] at h
    rw [if_pos hm] at h
    exact absurd h (by simp)
  · simp only [create_learning_path] at h
    rw [if_neg hm] at h
    rw [← Option.some.inj h]

theorem sortedModuleIds_perm (ks : KnowledgeSource) (known required : List String) :
    (sortedModuleIds ks known required).Perm required :=
  topoSortAux_perm ks required.length required known (le_refl _)

/-- A prerequisite edge always comes from a graph entry of the knowledge
source. -/
theorem get_prerequisites_mem_graph {ks : KnowledgeSource} {m p : String}
    (h : p ∈ ks.get_prerequisites m) :
    ∃ e ∈ ks.graph, e.1 = m ∧ p ∈ e.2.prerequisites := by
  unfold KnowledgeSource.get_prerequisites at h
  cases hdet : ks.get_module_details m with
  | none =>
    rw [hdet] at h
    exact absurd h (List.not_mem_nil p)
  | some d =>
    rw [hdet] at h
    unfold KnowledgeSource.get_module_details at hdet
    cases hfd : ks.graph.find? (fun e => e.1 == m) with
    | none =>
      rw [hfd] at hdet
      simp at hdet
    | some ed =>
      rw [hfd] at hdet
      have hd : ed.2 = d := by simpa using hdet
      refine ⟨ed, List.mem_of_find?_eq_some hfd, ?_, ?_⟩
      · have := List.find?_some hfd
        simpa using this
      · rw [hd]
        exact h

/-! ### The claims -/

/-- C10: `adapt_learning_path` is the identity on its current path: it
returns exactly the path it was given for every performance and engagement
input, hence it is idempotent, never removes completed modules, and never
returns an absent result. -/
theorem C10_adapt_stub_identity (current_path : LearningPath)
    (user_performance engagement_data : List (String × String)) :
    adapt_learning_path current_path user_performance engagement_data = some current_path :=
  rfl

/-- C5: whenever the assembled module list is empty, `create_learning_path`
returns an absent result (`none`); no exception is modelled because the
function is total. -/
theorem C5_empty_result_none (ks : KnowledgeSource) (user_id : String)
    (a : AssessmentOutput) (user_goals : List String)
    (h : formatModules ks (sortedModuleIds ks a.known_topics
      (requiredModules ks a.known_topics (targetModuleIds ks (primaryGoal user_goals)))) = []) :
    create_learning_path ks user_id a user_goals = none := by
  simp only [create_learning_path]
  rw [if_pos h]

/-- C5 witness: with `python_basics` already known, the goal
`"learn python basics"` assembles an empty module list and the path is
absent. -/
theorem C5_witness :
    formatModules pythonKS (sortedModuleIds pythonKS ["python_basics"]
      (requiredModules pythonKS ["python_basics"]
        (targetModuleIds pythonKS (primaryGoal ["learn python basics"])))) = []
    ∧ create_learning_path pythonKS "u1" { known_topics := ["python_basics"] }
        ["learn python basics"] = none :=
  ⟨rfl, C5_empty_result_none pythonKS "u1" { known_topics := ["python_basics"] }
    ["learn python basics"] rfl⟩

/-- C6: an id whose details are absent is never collected by the closure and
never appears in the returned path's module list, and path creation does not
fail because of it. -/
theorem C6_missing_module (ks : KnowledgeSource) (user_id : String) (a : AssessmentOutput)
    (user_goals : List String) (id : String)
    (hid : ks.get_module_details id = none) :
    id ∉ requiredModules ks a.known_topics (targetModuleIds ks (primaryGoal user_goals))
    ∧ ∀ path, create_learning_path ks user_id a user_goals = some path →
        id ∉ path.modules.map PathModule.module_id := by
  constructor
  · intro hmem
    have h := requiredModules_isSome ks a.known_topics _ id hmem
    rw [hid] at h
    exact absurd h (by simp)
  · intro path hpath hmem
    rw [create_modules_eq hpath] at hmem
    have h := (mem_formatModules_map.mp hmem).2
    rw [hid] at h
    exact absurd h (by simp)

/-- C6 witness: in `c1DanglingKS` the referenced id `a` has no entry; it is
absent from the closure and from the generated path. -/
theorem C6_witness :
    "a" ∉ requiredModules c1DanglingKS [] (targetModuleIds c1DanglingKS (primaryGoal ["g"]))
    ∧ "a" ∉ (["b"] : List String) := by
  have h := C6_missing_module c1DanglingKS "u" { known_topics := [] } ["g"] "a" rfl
  exact ⟨h.1, h.2
    { user_id := "u", goal := "g"
      modules := [{ module_id := "b", name := "B", status := "pending",
                    estimated_time_hrs := none }]
      current_module_index := 0
      assessment_snapshot := { known_topics := [] }
      user_goals_snapshot := ["g"] }
    rfl⟩

/-- C4: no known topic is collected by the closure or appears in the
returned path's module list. -/
theorem C4_known_topic_exclusion (ks : KnowledgeSource) (user_id : String)
    (a : AssessmentOutput) (user_goals : List String) (id : String)
    (hid : id ∈ a.known_topics) :
    id ∉ requiredModules ks a.known_topics (targetModuleIds ks (primaryGoal user_goals))
    ∧ ∀ path, create_learning_path ks user_id a user_goals = some path →
        id ∉ path.modules.map PathModule.module_id := by
  have hreq : id ∉ requiredModules ks a.known_topics
      (targetModuleIds ks (primaryGoal user_goals)) :=
    fun hmem => requiredModules_not_known ks a.known_topics _ id hmem hid
  refine ⟨hreq, ?_⟩
  intro path hpath hmem
  rw [create_modules_eq hpath] at hmem
  have hsorted := (mem_formatModules_map.mp hmem).1
  exact hreq ((sortedModuleIds_perm ks a.known_topics _).mem_iff.mp hsorted)

/-- C4 witness: with `variables` known and the goal `"learn python basics"`,
`variables` is excluded from the closure and from the generated path. -/
theorem C4_witness :
    "variables" ∉ requiredModules pythonKS ["variables"]
        (targetModuleIds pythonKS (primaryGoal ["learn python basics"]))
    ∧ "variables" ∉ (["python_basics"] : List String) := by
  have h := C4_known_topic_exclusion pythonKS "u1" { known_topics := ["variables"] }
    ["learn python basics"] "variables" (by decide)
  exact ⟨h.1, h.2
    { user_id := "u1", goal := "learn python basics"
      modules := [{ module_id := "python_basics", name := "Python Basics",
                    status := "pending", estimated_time_hrs := some 4 }]
      current_module_index := 0
      assessment_snapshot := { known_topics := ["variables"] }
      user_goals_snapshot := ["learn python basics"] }
    rfl⟩

/-- C3: whenever, at any iteration of the topological sort loop, no
remaining module is ready while some remain, the loop appends all remaining
ids as a single lexicographically sorted final batch and stops; the
generation still completes (the embedding is a total function, matching the
logged-diagnostic, no-exception behaviour of the source). -/
theorem C3_cycle_fallback (ks : KnowledgeSource) (fuel : Nat)
    (remaining satisfied : List String) (hlen : remaining.length ≤ fuel)
    (hne : remaining ≠ [])
    (hstuck : ∀ m ∈ remaining, ready ks satisfied m = false) :
    topoSortAux ks fuel remaining satisfied = sortIds remaining := by
  cases remaining with
  | nil => exact absurd rfl hne
  | cons m rest =>
    cases fuel with
    | zero => simp at hlen
    | succ fuel =>
      simp only [topoSortAux]
      have hfe : (m :: rest).filter (fun x => ready ks satisfied x) = [] :=
        List.filter_eq_nil_iff.mpr (fun a ha => by simp [hstuck a ha])
      rw [hfe]
      rw [if_pos (show sortIds ([] : List String) = [] from rfl)]

/-- C3 witness: on the two-module cycle neither module is ever ready, and
the loop emits the lexicographically sorted remainder in one final batch. -/
theorem C3_witness :
    topoSortAux cycleKS 2 ["a", "b"] [] = sortIds ["a", "b"] :=
  C3_cycle_fallback cycleKS 2 ["a", "b"] [] (by decide) (by decide) (by decide)

/-- C9: the module ordering computed by the topological-sort phase depends
only on the required-module set and the known-topic set, not on the order in
which Python's unordered sets happen to enumerate them: permuting the
required list and replacing the known list by any list with the same members
yields the identical output list.  Together with the purely functional
embedding this is the determinism of `create_learning_path`. -/
theorem C9_determinism (ks : KnowledgeSource) (known₁ known₂ required₁ required₂ : List String)
    (hreq : required₁.Perm required₂) (hknown : ∀ x, x ∈ known₁ ↔ x ∈ known₂) :
    sortedModuleIds ks known₁ required₁ = sortedModuleIds ks known₂ required₂ := by
  unfold sortedModuleIds
  rw [hreq.length_eq]
  exact topoSortAux_eq_of_perm ks required₂.length required₁ required₂ known₁ known₂ hreq hknown

/-- C9 witness: enumerating the required set and the known set in two
different orders produces the same sorted module sequence. -/
theorem C9_witness :
    sortedModuleIds pythonKS ["variables", "functions"] ["operators", "data_types"]
      = sortedModuleIds pythonKS ["functions", "variables"] ["data_types", "operators"] :=
  C9_determinism pythonKS ["variables", "functions"] ["functions", "variables"]
    ["operators", "data_types"] ["data_types", "operators"]
    (by decide) (fun x => (by decide : (["variables", "functions"] : List String).Perm
      ["functions", "variables"]).mem_iff)

/-- C2: `create_learning_path` terminates on every input (the embedding is a
total function whose loop bounds are proved sufficient); the sequence
produced by the topological-sort phase is a permutation of the
required-module set computed by the closure phase; and no module id appears
twice in the returned path's module list. -/
theorem C2_termination_uniqueness (ks : KnowledgeSource) (user_id : String)
    (a : AssessmentOutput) (user_goals : List String) :
    (sortedModuleIds ks a.known_topics (requiredModules ks a.known_topics
        (targetModuleIds ks (primaryGoal user_goals)))).Perm
      (requiredModules ks a.known_topics (targetModuleIds ks (primaryGoal user_goals)))
    ∧ ∀ path, create_learning_path ks user_id a user_goals = some path →
        (path.modules.map PathModule.module_id).Nodup := by
  constructor
  · exact sortedModuleIds_perm ks a.known_topics _
  · intro path hpath
    rw [create_modules_eq hpath, formatModules_map_id]
    exact List.Nodup.filter _
      ((sortedModuleIds_perm ks a.known_topics _).symm.nodup
        (requiredModules_nodup ks a.known_topics _))

/-- C2 witness: on the cyclic knowledge source the loop still terminates,
the sort output is a permutation of the required set, and the emitted path
(`a` then `b`, via the cycle fallback) has no duplicate ids. -/
theorem C2_witness :
    (sortedModuleIds cycleKS [] (requiredModules cycleKS []
        (targetModuleIds cycleKS (primaryGoal ["g"])))).Perm
      (requiredModules cycleKS [] (targetModuleIds cycleKS (primaryGoal ["g"])))
    ∧ (["a", "b"] : List String).Nodup := by
  have h := C2_termination_uniqueness cycleKS "u" { known_topics := [] } ["g"]
  exact ⟨h.1, h.2
    { user_id := "u", goal := "g"
      modules := [{ module_id := "a", name := "A", status := "pending",
                    estimated_time_hrs := none },
                  { module_id := "b", name := "B", status := "pending",
                    estimated_time_hrs := none }]
      current_module_index := 0
      assessment_snapshot := { known_topics := [] }
      user_goals_snapshot := ["g"] }
    rfl⟩

/-- C7 (amended): for every input the seed module list is non-empty, and
the primary goal of an empty goals list is the fixed default label; and an
empty goals list yields a non-absent path whenever `find_modules_by_goal`
returns no ids for the default goal label, the fallback module
`python_basics` exists in the knowledge source, and it is not among the
known topics. -/
theorem C7_goal_fallback :
    (∀ (ks : KnowledgeSource) (goals : List String),
      targetModuleIds ks (primaryGoal goals) ≠ [])
    ∧ primaryGoal [] = "Default Learning Goal"
    ∧ ∀ (ks : KnowledgeSource) (user_id : String) (known : List String) (d : ModuleDetails),
        ks.find_modules_by_goal "Default Learning Goal" = [] →
        ks.get_module_details "python_basics" = some d →
        "python_basics" ∉ known →
        create_learning_path ks user_id { known_topics := known } [] ≠ none := by
  refine ⟨?_, rfl, ?_⟩
  · intro ks goals
    unfold targetModuleIds
    by_cases ht : ks.find_modules_by_goal (primaryGoal goals) = []
    · rw [if_pos ht]
      simp
    · rw [if_neg ht]
      exact ht
  · intro ks user_id known d hfind hdet hknown
    have htarget : targetModuleIds ks (primaryGoal []) = ["python_basics"] := by
      unfold targetModuleIds primaryGoal
      simp [hfind]
    have hreq : "python_basics" ∈ requiredModules ks known
        (targetModuleIds ks (primaryGoal [])) := by
      rw [htarget]
      exact python_basics_mem_required ks known hknown d hdet
    have hsorted : "python_basics" ∈ sortedModuleIds ks known
        (requiredModules ks known (targetModuleIds ks (primaryGoal []))) :=
      (sortedModuleIds_perm ks known _).mem_iff.mpr hreq
    have hmem : "python_basics" ∈ (formatModules ks (sortedModuleIds ks known
        (requiredModules ks known (targetModuleIds ks (primaryGoal []))))).map
          PathModule.module_id :=
      mem_formatModules_map.mpr ⟨hsorted, by rw [hdet]; rfl⟩
    intro hnone
    by_cases hm : formatModules ks (sortedModuleIds ks known
        (requiredModules ks known (targetModuleIds ks (primaryGoal [])))) = []
    · rw [hm] at hmem
      simp at hmem
    · simp only [create_learning_path] at hnone
      rw [if_neg hm] at hnone
      exact absurd hnone (by simp)

/-- C7 witness: the seed list is non-empty on the repository's own
knowledge source with empty goals, and on a knowledge source that resolves
no goal at all the `python_basics` fallback fires and the generated path is
non-absent. -/
theorem C7_witness :
    targetModuleIds pythonKS (primaryGoal []) ≠ []
    ∧ primaryGoal [] = "Default Learning Goal"
    ∧ create_learning_path c7FallbackKS "u" { known_topics := [] } [] ≠ none :=
  ⟨C7_goal_fallback.1 pythonKS [],
   C7_goal_fallback.2.1,
   C7_goal_fallback.2.2 c7FallbackKS "u" []
     { name := some "PB", description := ""
       prerequisites := [], topics := [], estimated_time_hrs := none }
     rfl rfl (by simp)⟩

/-- C7 counterexample: the claim's consequent fails as stated.  In
`c7GhostKS` the default goal resolves to the id `ghost`, which has no entry,
so the seed list is `["ghost"]` (non-empty, hence no fallback), the closure
collects nothing, and the result is absent even though `python_basics`
exists in the knowledge source and is not known. -/
theorem C7_counterexample :
    create_learning_path c7GhostKS "u" { known_topics := [] } [] = none
    ∧ (c7GhostKS.get_module_details "python_basics").isSome = true
    ∧ "python_basics" ∉ ([] : List String) :=
  ⟨rfl, rfl, by simp⟩

/-- C8 counterexample: on the graph exactly as the claim describes it
(`data_types` with no prerequisites of its own), `variables` and
`data_types` are both ready in the first pass and the lexicographic
tie-break puts `data_types` first, so the output order differs from the
order the claim expects. -/
theorem C8_counterexample :
    (∃ path, create_learning_path c8LiteralKS "u" { known_topics := [] } ["g"] = some path
      ∧ path.modules.map PathModule.module_id
          = ["data_types", "variables", "operators", "control_flow"])
    ∧ (["data_types", "variables", "operators", "control_flow"] : List String)
        ≠ ["variables", "data_types", "operators", "control_flow"] := by
  refine ⟨⟨{ user_id := "u", goal := "g"
             modules :=
               [{ module_id := "data_types", name := "Data Types", status := "pending",
                  estimated_time_hrs := some 1 },
                { module_id := "variables", name := "Variables", status := "pending",
                  estimated_time_hrs := some 0.5 },
                { module_id := "operators", name := "Operators", status := "pending",
                  estimated_time_hrs := some 1 },
                { module_id := "control_flow", name := "Control Flow", status := "pending",
                  estimated_time_hrs := some 1.5 }]
             current_module_index := 0
             assessment_snapshot := { known_topics := [] }
             user_goals_snapshot := ["g"] }, rfl, rfl⟩, by decide⟩

/-- C8 (amended): with the worked scenario run on the repository's actual
graph — where, in addition to the claim's premises, `data_types` requires
`variables` — an empty known-topic set and a goal resolving to
`control_flow` produce exactly the module order
`variables, data_types, operators, control_flow`. -/
theorem C8_worked_scenario :
    ∃ path, create_learning_path c8RepoKS "u" { known_topics := [] } ["g"] = some path
      ∧ path.modules.map PathModule.module_id
          = ["variables", "data_types", "operators", "control_flow"] :=
  ⟨{ user_id := "u", goal := "g"
     modules :=
       [{ module_id := "variables", name := "Variables and Assignment", status := "pending",
          estimated_time_hrs := some 0.5 },
        { module_id := "data_types", name := "Basic Data Types", status := "pending",
          estimated_time_hrs := some 1 },
        { module_id := "operators", name := "Operators", status := "pending",
          estimated_time_hrs := some 1 },
        { module_id := "control_flow", name := "Control Flow", status := "pending",
          estimated_time_hrs := some 1.5 }]
     current_module_index := 0
     assessment_snapshot := { known_topics := [] }
     user_goals_snapshot := ["g"] }, rfl, rfl⟩

/-- C1 (amended): for every acyclic input — acyclicity witnessed by a rank
function decreasing along prerequisite edges — in which additionally every
referenced prerequisite id is either known or present in the knowledge
source (the counterexample `C1_prereq_validity_counterexample` shows the
claim fails without this), every module of the returned path has each of its
prerequisites either in the known topics or at a strictly earlier position
of the path. -/
theorem C1_prerequisite_validity (ks : KnowledgeSource) (user_id : String)
    (a : AssessmentOutput) (user_goals : List String) (rank : String → Nat)
    (hacyc : ∀ m p, p ∈ ks.get_prerequisites m → rank p < rank m)
    (href : ∀ m p, p ∈ ks.get_prerequisites m →
      p ∈ a.known_topics ∨ (ks.get_module_details p).isSome = true) :
    ∀ path, create_learning_path ks user_id a user_goals = some path →
      PrereqValid ks a.known_topics (path.modules.map PathModule.module_id) := by
  intro path hpath
  have hperm := sortedModuleIds_perm ks a.known_topics
    (requiredModules ks a.known_topics (targetModuleIds ks (primaryGoal user_goals)))
  have hall : ∀ i ∈ sortedModuleIds ks a.known_topics
      (requiredModules ks a.known_topics (targetModuleIds ks (primaryGoal user_goals))),
      (ks.get_module_details i).isSome = true :=
    fun i hi => requiredModules_isSome ks a.known_topics _ i (hperm.mem_iff.mp hi)
  have hids : path.modules.map PathModule.module_id
      = sortedModuleIds ks a.known_topics
        (requiredModules ks a.known_topics (targetModuleIds ks (primaryGoal user_goals))) := by
    rw [create_modules_eq hpath]
    exact formatModules_map_id_of_all hall
  rw [hids]
  intro i hi p hp
  have hcov : ∀ m ∈ requiredModules ks a.known_topics
      (targetModuleIds ks (primaryGoal user_goals)),
      ∀ q ∈ ks.get_prerequisites m,
        q ∈ a.known_topics ∨ q ∈ requiredModules ks a.known_topics
          (targetModuleIds ks (primaryGoal user_goals)) := by
    intro m hm q hq
    rcases requiredModules_complete ks a.known_topics _ m hm q hq with h | h | h
    · exact Or.inl h
    · exact Or.inr h
    · rcases href m q hq with h' | h'
      · exact Or.inl h'
      · rw [h] at h'
        exact absurd h' (by simp)
  have hsplit :
      sortedModuleIds ks a.known_topics
        (requiredModules ks a.known_topics (targetModuleIds ks (primaryGoal user_goals)))
      = (sortedModuleIds ks a.known_topics
          (requiredModules ks a.known_topics (targetModuleIds ks (primaryGoal user_goals)))).take i
        ++ (sortedModuleIds ks a.known_topics
            (requiredModules ks a.known_topics
              (targetModuleIds ks (primaryGoal user_goals)))).get ⟨i, hi⟩
          :: (sortedModuleIds ks a.known_topics
              (requiredModules ks a.known_topics
                (targetModuleIds ks (primaryGoal user_goals)))).drop (i + 1) := by
    conv_lhs => rw [← List.take_append_drop i (sortedModuleIds ks a.known_topics
      (requiredModules ks a.known_topics (targetModuleIds ks (primaryGoal user_goals))))]
    congr 1
    exact (List.get_cons_drop _ ⟨i, hi⟩).symm
  exact topoSortAux_valid ks rank hacyc
    (requiredModules ks a.known_topics (targetModuleIds ks (primaryGoal user_goals))).length
    (requiredModules ks a.known_topics (targetModuleIds ks (primaryGoal user_goals)))
    a.known_topics (le_refl _) hcov _ _ _ hsplit p hp

/-- C1 witness: on the acyclic chain `a2 → a1` with nothing known, the
generated path `a1, a2` is prerequisite-valid. -/
theorem C1_witness : PrereqValid chainKS [] ["a1", "a2"] := by
  have hacyc : ∀ m p, p ∈ chainKS.get_prerequisites m →
      (fun s => if s = "a1" then 0 else 1 : String → Nat) p
        < (fun s => if s = "a1" then 0 else 1 : String → Nat) m := by
    intro m p h
    obtain ⟨e, he, hm, hp⟩ := get_prerequisites_mem_graph h
    simp only [chainKS, List.mem_cons, List.not_mem_nil, or_false] at he
    rcases he with rfl | rfl
    · simp only at hm hp
      rw [← hm, List.mem_singleton.mp hp]
      decide
    · simp only at hm hp
      exact absurd hp (List.not_mem_nil p)
  have href : ∀ m p, p ∈ chainKS.get_prerequisites m →
      p ∈ ([] : List String) ∨ (chainKS.get_module_details p).isSome = true := by
    intro m p h
    obtain ⟨e, he, hm, hp⟩ := get_prerequisites_mem_graph h
    simp only [chainKS, List.mem_cons, List.not_mem_nil, or_false] at he
    rcases he with rfl | rfl
    · simp only at hp
      rw [List.mem_singleton.mp hp]
      exact Or.inr rfl
    · simp only at hp
      exact absurd hp (List.not_mem_nil p)
  exact C1_prerequisite_validity chainKS "u" { known_topics := [] } ["g"]
    (fun s => if s = "a1" then 0 else 1) hacyc href
    { user_id := "u", goal := "g"
      modules :=
        [{ module_id := "a1", name := "A1", status := "pending",
           estimated_time_hrs := none },
         { module_id := "a2", name := "A2", status := "pending",
           estimated_time_hrs := none }]
      current_module_index := 0
      assessment_snapshot := { known_topics := [] }
      user_goals_snapshot := ["g"] }
    rfl

/-- C1 counterexample: the claim as stated — quantified over all non-cyclic
inputs — is false.  `c1DanglingKS` is acyclic (a rank function exists), yet
the generated path consists of the single module `b` whose prerequisite `a`
is neither known nor earlier in the path, because `a` resolves to no entry
and the sort loop's fallback emits `b` anyway. -/
theorem C1_prereq_validity_counterexample :
    (∃ rank : String → Nat, ∀ m p, p ∈ c1DanglingKS.get_prerequisites m → rank p < rank m)
    ∧ ∃ path, create_learning_path c1DanglingKS "u" { known_topics := [] } ["g"] = some path
        ∧ ¬ PrereqValid c1DanglingKS [] (path.modules.map PathModule.module_id) := by
  constructor
  · refine ⟨fun s => if s = "b" then 1 else 0, ?_⟩
    intro m p h
    obtain ⟨e, he, hm, hp⟩ := get_prerequisites_mem_graph h
    simp only [c1DanglingKS, List.mem_cons, List.not_mem_nil, or_false] at he
    subst he
    simp only at hm hp
    rw [← hm, List.mem_singleton.mp hp]
    decide
  · refine ⟨{ user_id := "u", goal := "g"
              modules := [{ module_id := "b", name := "B", status := "pending",
                            estimated_time_hrs := none }]
              current_module_index := 0
              assessment_snapshot := { known_topics := [] }
              user_goals_snapshot := ["g"] }, rfl, ?_⟩
    intro hPV
    have h := hPV 0 (by decide) "a" (by decide)
    rcases h with h | h
    · exact absurd h (by simp)
    · exact absurd h (by simp)
